import Mathlib

/-!
# Verification of the simplified `SimpleBaseModel` (BaseModel原理示例.py)

Shallow embedding of the toy annotation-driven validation class
`SimpleBaseModel` from `src/MyLearningNotes/BaseModel原理示例.py`, and of the
example subclass `User` declared in the same file.

Modelling conventions:
* Python runtime values relevant to the file are `None`, `bool`, `int`, `str`
  (`PyVal`); the corresponding classes are `PyType`.  Python's `isinstance`
  treats `bool` as a subclass of `int`, which `isinstanceOf` reproduces.
* Type annotations (`TypeHint`) distinguish the three shapes the interpreter
  distinguishes: a plain class, a `typing.Union[...]`/`typing.Optional[...]`
  subscription, and a PEP 604 union `X | Y` (a `types.UnionType`).  On the
  Python versions contemporary with this code (3.10-3.13, the versions in
  which the `str | None` syntax used by `User.email` exists as a separate
  runtime type), `typing.get_origin` returns `typing.Union` only for the
  subscription form and `types.UnionType` for the `X | Y` form, and
  `types.UnionType is not typing.Union`; `_get_actual_type`'s test
  `origin is typing.Union` therefore fires only for the subscription form.
* `isinstance(v, X | Y)` is legal on these versions and checks membership in
  any alternative; `isinstance(v, typing.Union[...])` (which the code would
  only reach for a subscription union with no non-`None` alternative, a hint
  that is not constructible in Python) raises `TypeError`, which we model as
  the check failing, so validation fails with a type error either way.
* A model class is its `__annotations__` dict (an ordered list of fields with
  distinct names) together with its class-level attributes (the defaults that
  `hasattr`/`getattr` find on the class); an instance is its `__dict__`
  (instance attributes in insertion order) over its class.
* `int(s)` on a `str` is modelled for ASCII base-10 literals: surrounding
  whitespace, an optional sign, and digits with single underscores between
  digits, as CPython accepts.
* Exceptions become `Except` values: `ValueError` for a missing required
  field, `TypeError` for a failed conversion or type mismatch.
-/

/-- Python runtime values occurring in the file: `None`, `bool`, `int`, `str`. -/
inductive PyVal where
  | vNone : PyVal
  | vBool : Bool → PyVal
  | vInt : Int → PyVal
  | vStr : String → PyVal
deriving DecidableEq, Repr

/-- The Python classes of those values. -/
inductive PyType where
  | tNone : PyType
  | tBool : PyType
  | tInt : PyType
  | tStr : PyType
deriving DecidableEq, Repr

/-- `isinstance(v, t)` for a plain class `t`.  In Python `bool` is a subclass
of `int`, so a `bool` value is an instance of `int`. -/
def isinstanceOf : PyVal → PyType → Bool
  | .vNone, .tNone => true
  | .vBool _, .tBool => true
  | .vBool _, .tInt => true
  | .vInt _, .tInt => true
  | .vStr _, .tStr => true
  | _, _ => false

/-- A type annotation as the interpreter sees it: a plain class, a
`typing.Union[...]`/`typing.Optional[...]` subscription, or a PEP 604
union `X | Y` (`types.UnionType`). -/
inductive TypeHint where
  | simple : PyType → TypeHint
  | typingUnion : List PyType → TypeHint
  | pipeUnion : List PyType → TypeHint
deriving DecidableEq, Repr

/-- First non-`None` alternative of a union's argument list. -/
def firstNonNone (args : List PyType) : Option PyType :=
  args.find? (fun t => !(t = PyType.tNone : Bool))

/-- `SimpleBaseModel._get_actual_type`: `typing.get_origin(hint)` is
`typing.Union` exactly for the subscription form, in which case the first
non-`None` argument is returned; every other hint (plain classes and PEP 604
unions, whose origin is `types.UnionType`) is returned unchanged, as is a
subscription union in which the loop finds no non-`None` argument. -/
def get_actual_type (hint : TypeHint) : TypeHint :=
  match hint with
  | .typingUnion args =>
      match firstNonNone args with
      | some t => .simple t
      | none => .typingUnion args
  | h => h

/-- `isinstance(v, h)` for what `_get_actual_type` can return: a plain class
checks the class; a PEP 604 union checks each alternative; a subscripted
`typing.Union` makes `isinstance` raise `TypeError` (modelled as the check
failing, so the same `TypeError` outcome). -/
def isinstanceHint (v : PyVal) : TypeHint → Bool
  | .simple t => isinstanceOf v t
  | .typingUnion _ => false
  | .pipeUnion args => args.any (isinstanceOf v)

/-- Python blank characters stripped by `int(str)`. -/
def isPyWhitespace (c : Char) : Bool :=
  c = ' ' || c = '\t' || c = '\n' || c = '\r' || c = '\x0b' || c = '\x0c'

/-- Digit run with single underscores allowed between digits, accumulating the
base-10 value; the first character was already checked to be a digit. -/
def parseDigitsUnd : List Char → Nat → Option Nat
  | [], acc => some acc
  | c :: rest, acc =>
      if c.isDigit then parseDigitsUnd rest (acc * 10 + (c.toNat - 48))
      else if c = '_' then
        match rest with
        | [] => none
        | d :: rest2 =>
            if d.isDigit then parseDigitsUnd rest2 (acc * 10 + (d.toNat - 48))
            else none
      else none

/-- `int(s)` for a `str` argument, base 10 (ASCII literals): strip blanks,
optional sign, then digits with single underscores between digits; `none`
models a raised `ValueError`. -/
def parsePyInt (s : String) : Option Int :=
  let cs := (s.toList.dropWhile isPyWhitespace).reverse
  let cs := (cs.dropWhile isPyWhitespace).reverse
  match cs with
  | [] => none
  | c :: rest =>
      let body := if c = '-' || c = '+' then rest else c :: rest
      let neg := c = '-'
      match body with
      | [] => none
      | d :: _ =>
          if d.isDigit then
            match parseDigitsUnd body 0 with
            | some n => some (if neg then -(n : Int) else (n : Int))
            | none => none
          else none

/-- A Python exception as the file raises them. -/
inductive PyError where
  | valueErr : String → PyError
  | typeErr : String → PyError
deriving DecidableEq, Repr

/-- Message of the `ValueError` raised for a missing required field; it names
the field ("字段 ... 是必需的"). -/
def missingFieldMsg (name : String) : String :=
  "field " ++ name ++ " is required"

/-- Message of the `TypeError` raised when `int(s)` fails. -/
def convErrMsg (s : String) : String :=
  "cannot convert " ++ s ++ " to int"

/-- Message of the `TypeError` raised on a plain type mismatch. -/
def mismatchMsg : String :=
  "unexpected value type"

/-- `SimpleBaseModel._validate_type`: reduce the hint with
`_get_actual_type`; if the reduced hint is the class `int` and the value is a
`str`, parse it (success returns the parsed `int`, failure raises
`TypeError`); otherwise require `isinstance` against the reduced hint,
returning the value unchanged on success and raising `TypeError` on
failure. -/
def validate_type (value : PyVal) (expected : TypeHint) : Except PyError PyVal :=
  match get_actual_type expected, value with
  | .simple .tInt, .vStr s =>
      match parsePyInt s with
      | some n => .ok (.vInt n)
      | none => .error (.typeErr (convErrMsg s))
  | actual, v =>
      if isinstanceHint v actual then .ok v
      else .error (.typeErr mismatchMsg)

/-- A declared field: its name and its annotation. -/
structure PyField where
  name : String
  hint : TypeHint
deriving DecidableEq, Repr

/-- A `SimpleBaseModel` subclass as `__init__` sees it: the class's
`__annotations__` (declaration order) and its class-level attributes (the
defaults found by `hasattr`/`getattr` on the class). -/
structure ModelClass where
  annotations : List PyField
  classAttrs : List (String × PyVal)
deriving DecidableEq, Repr

/-- First-match lookup in an attribute/keyword association list (a Python
dict keeps one entry per key, so first match is the match). -/
def kwlookup : List (String × PyVal) → String → Option PyVal
  | [], _ => none
  | (k, v) :: rest, n => if k = n then some v else kwlookup rest n

/-- An instance mid- or post-construction: its class and its `__dict__`
(instance attributes in insertion order). -/
structure Instance where
  cls : ModelClass
  attrs : List (String × PyVal)
deriving DecidableEq, Repr

/-- `getattr(self, n, <absent>)`: instance attribute first, then class
attribute. -/
def getattrI (inst : Instance) (n : String) : Option PyVal :=
  match kwlookup inst.attrs n with
  | some v => some v
  | none => kwlookup inst.cls.classAttrs n

/-- `hasattr(self, n)` during `__init__`, with `attrs` the instance
attributes set so far: true if the instance or the class has the
attribute. -/
def hasattrMid (cls : ModelClass) (attrs : List (String × PyVal)) (n : String) : Bool :=
  (kwlookup attrs n).isSome || (kwlookup cls.classAttrs n).isSome

/-- The field loop of `SimpleBaseModel.__init__`: walk the annotations in
declaration order; a supplied field is validated (first failure raised) and
`setattr` appends it to the instance `__dict__`; an absent field with a
class-or-instance attribute is skipped; an absent field without one raises
`ValueError` naming the field. -/
def initFields (cls : ModelClass) (kwargs : List (String × PyVal)) :
    List PyField → List (String × PyVal) → Except PyError (List (String × PyVal))
  | [], attrs => .ok attrs
  | f :: rest, attrs =>
      match kwlookup kwargs f.name with
      | some v =>
          match validate_type v f.hint with
          | .ok v2 => initFields cls kwargs rest (attrs ++ [(f.name, v2)])
          | .error e => .error e
      | none =>
          if hasattrMid cls attrs f.name then initFields cls kwargs rest attrs
          else .error (.valueErr (missingFieldMsg f.name))

/-- `SimpleBaseModel.__init__` as a whole: run the field loop on an empty
instance `__dict__`; an exception aborts construction (no instance), success
yields the instance. -/
def construct (cls : ModelClass) (kwargs : List (String × PyVal)) :
    Except PyError Instance :=
  (initFields cls kwargs cls.annotations []).map (fun attrs => ⟨cls, attrs⟩)

/-- `SimpleBaseModel.model_dump`: walk the annotations in order and collect
`(name, getattr(self, name))` for each field the instance has (instance or
class attribute); the result models the returned dict in insertion order. -/
def model_dump (inst : Instance) : List (String × PyVal) :=
  inst.cls.annotations.filterMap
    (fun f => (getattrI inst f.name).map (fun v => (f.name, v)))

/-- The example subclass `User`: `name : str`, `age : int`,
`email : str | None = None` (PEP 604 union with class-level default). -/
def UserClass : ModelClass :=
  { annotations :=
      [ ⟨"name", .simple .tStr⟩,
        ⟨"age", .simple .tInt⟩,
        ⟨"email", .pipeUnion [.tStr, .tNone]⟩ ],
    classAttrs := [("email", .vNone)] }

/-- A subclass whose only field declares `int` but whose class-level default
is the string "oops": defaults are never validated by `__init__`. -/
def BadDefaultClass : ModelClass :=
  { annotations := [⟨"x", .simple .tInt⟩],
    classAttrs := [("x", .vStr "oops")] }

/-- Whether a value is an instance of the annotation itself (satisfies the
hint): for unions of either form, membership in some alternative. -/
def satisfiesHint (v : PyVal) : TypeHint → Bool
  | .simple t => isinstanceOf v t
  | .typingUnion args => args.any (isinstanceOf v)
  | .pipeUnion args => args.any (isinstanceOf v)

/-- Field names of a class's annotations. -/
def fieldNames (cls : ModelClass) : List String :=
  cls.annotations.map PyField.name

/-- How field `f` fares against `kwargs` in isolation: `none` when it passes
(supplied and validating, or absent with a class default), otherwise the
exception its processing raises. -/
def fieldError (cls : ModelClass) (kwargs : List (String × PyVal)) (f : PyField) :
    Option PyError :=
  match kwlookup kwargs f.name with
  | some v =>
      match validate_type v f.hint with
      | .ok _ => none
      | .error e => some e
  | none =>
      if (kwlookup cls.classAttrs f.name).isSome then none
      else some (.valueErr (missingFieldMsg f.name))

/-- Field `f` passes against `kwargs`. -/
def fieldOk (cls : ModelClass) (kwargs : List (String × PyVal)) (f : PyField) : Bool :=
  (fieldError cls kwargs f).isNone

/-- Whether an `Except` outcome is a success (no exception raised). -/
def exceptOk {α : Type} : Except PyError α → Bool
  | .ok _ => true
  | .error _ => false

/-- Failure case 1 of the claim: field `f` is required (no class-level
default) and absent from the keyword arguments. -/
def requiredMissing (cls : ModelClass) (kwargs : List (String × PyVal))
    (f : PyField) : Bool :=
  (kwlookup kwargs f.name).isNone && (kwlookup cls.classAttrs f.name).isNone

/-- Failure case 2 of the claim: a value is supplied for `f` and
`_validate_type` cannot reconcile it with the declared type. -/
def suppliedUnreconcilable (kwargs : List (String × PyVal)) (f : PyField) : Bool :=
  match kwlookup kwargs f.name with
  | some v => !(exceptOk (validate_type v f.hint))
  | none => false

/-- The keyword arguments restricted to a set of names (used to state that
undeclared keyword arguments are ignored). -/
def restrictKwargs (names : List String) : List (String × PyVal) → List (String × PyVal)
  | [] => []
  | (k, v) :: rest =>
      if names.contains k then (k, v) :: restrictKwargs names rest
      else restrictKwargs names rest

/-! ## Lookup lemmas -/

theorem kwlookup_append (l1 l2 : List (String × PyVal)) (n : String) :
    kwlookup (l1 ++ l2) n =
      match kwlookup l1 n with
      | some v => some v
      | none => kwlookup l2 n := by
  induction l1 with
  | nil => simp [kwlookup]
  | cons p rest ih =>
      obtain ⟨k, v⟩ := p
      by_cases h : k = n <;> simp [kwlookup, h, ih]

theorem kwlookup_eq_none (l : List (String × PyVal)) (n : String)
    (h : n ∉ l.map Prod.fst) : kwlookup l n = none := by
  induction l with
  | nil => rfl
  | cons p rest ih =>
      obtain ⟨k, v⟩ := p
      simp only [List.map_cons, List.mem_cons, not_or] at h
      have hk : ¬ (k = n) := fun hkn => h.1 hkn.symm
      simp [kwlookup, hk, ih h.2]

theorem kwlookup_isSome_iff (l : List (String × PyVal)) (n : String) :
    (kwlookup l n).isSome = true ↔ n ∈ l.map Prod.fst := by
  induction l with
  | nil => simp [kwlookup]
  | cons p rest ih =>
      obtain ⟨k, v⟩ := p
      by_cases h : k = n
      · subst h; simp [kwlookup]
      · have h2 : ¬ (n = k) := fun e => h e.symm
        simp [kwlookup, h, ih, h2]

/-! ## Structure of the `__init__` loop -/

theorem initFields_ok_extends (cls : ModelClass) (kwargs : List (String × PyVal)) :
    ∀ (fs : List PyField) (attrs res : List (String × PyVal)),
      initFields cls kwargs fs attrs = .ok res →
      ∃ ext, res = attrs ++ ext ∧ ∀ p ∈ ext, p.1 ∈ fs.map PyField.name := by
  intro fs
  induction fs with
  | nil =>
      intro attrs res h
      simp only [initFields] at h
      cases h
      exact ⟨[], by simp, by simp⟩
  | cons f rest ih =>
      intro attrs res h
      simp only [initFields] at h
      split at h
      · split at h
        · obtain ⟨ext, he, hmem⟩ := ih _ res h
          next v2 hv =>
            refine ⟨(f.name, v2) :: ext, by simpa using he, ?_⟩
            intro p hp
            rcases List.mem_cons.mp hp with h1 | h1
            · subst h1; simp
            · simpa using Or.inr (hmem p h1)
        · cases h
      · split at h
        · obtain ⟨ext, he, hmem⟩ := ih attrs res h
          exact ⟨ext, he, fun p hp => by simpa using Or.inr (hmem p hp)⟩
        · cases h

theorem initFields_lookup (cls : ModelClass) (kwargs : List (String × PyVal)) :
    ∀ (fs : List PyField) (attrs res : List (String × PyVal)),
      (fs.map PyField.name).Nodup →
      (∀ f ∈ fs, f.name ∉ attrs.map Prod.fst) →
      initFields cls kwargs fs attrs = .ok res →
      ∀ f ∈ fs,
        (∀ v, kwlookup kwargs f.name = some v →
            ∃ v2, validate_type v f.hint = .ok v2 ∧ kwlookup res f.name = some v2) ∧
        (kwlookup kwargs f.name = none →
            kwlookup res f.name = none ∧
            (kwlookup cls.classAttrs f.name).isSome = true) := by
  intro fs
  induction fs with
  | nil => intro attrs res _ _ _ f hf; cases hf
  | cons f0 rest ih =>
      intro attrs res hnd hdisj h
      simp only [List.map_cons, List.nodup_cons] at hnd
      obtain ⟨hf0rest, hnd'⟩ := hnd
      have hf0attrs : f0.name ∉ attrs.map Prod.fst := hdisj f0 (List.mem_cons_self _ _)
      simp only [initFields] at h
      split at h
      next v hk =>
        split at h
        next v2 hv =>
          have hdisj' : ∀ g ∈ rest, g.name ∉ (attrs ++ [(f0.name, v2)]).map Prod.fst := by
            intro g hg
            simp only [List.map_append, List.mem_append, List.map_cons, List.map_nil,
              List.mem_singleton, not_or]
            refine ⟨hdisj g (List.mem_cons_of_mem _ hg), ?_⟩
            intro hgn
            exact hf0rest (hgn ▸ List.mem_map_of_mem PyField.name hg)
          obtain ⟨ext, he, hmem⟩ := initFields_ok_extends cls kwargs rest _ res h
          intro f hf
          rcases List.mem_cons.mp hf with rfl | hf
          · constructor
            · intro v' hv'
              rw [hk] at hv'
              cases hv'
              refine ⟨v2, hv, ?_⟩
              subst he
              rw [List.append_assoc, kwlookup_append, kwlookup_eq_none attrs _ hf0attrs]
              simp [kwlookup]
            · intro hnone; rw [hk] at hnone; cases hnone
          · exact ih _ res hnd' hdisj' h f hf
        next e hv => cases h
      next hk =>
        split at h
        next hh =>
          obtain ⟨ext, he, hmem⟩ := initFields_ok_extends cls kwargs rest attrs res h
          intro f hf
          rcases List.mem_cons.mp hf with rfl | hf
          · constructor
            · intro v' hv'; rw [hk] at hv'; cases hv'
            · intro _
              have hres : kwlookup res f.name = none := by
                subst he
                apply kwlookup_eq_none
                simp only [List.map_append, List.mem_append, not_or]
                refine ⟨hf0attrs, ?_⟩
                intro hin
                rcases List.mem_map.mp hin with ⟨p, hp, hpn⟩
                exact hf0rest (hpn ▸ hmem p hp)
              refine ⟨hres, ?_⟩
              have h1 : (kwlookup attrs f.name).isSome = false := by
                rw [kwlookup_eq_none attrs _ hf0attrs]; rfl
              unfold hasattrMid at hh
              rw [h1] at hh
              simpa using hh
          · exact ih attrs res hnd'
              (fun g hg => hdisj g (List.mem_cons_of_mem _ hg)) h f hf
        next hh => cases h


theorem initFields_nil (cls : ModelClass) (kwargs attrs : List (String × PyVal)) :
    initFields cls kwargs [] attrs = .ok attrs := rfl

theorem initFields_cons_supplied (cls : ModelClass) (kwargs : List (String × PyVal))
    (f : PyField) (rest : List PyField) (attrs : List (String × PyVal)) (v : PyVal)
    (hk : kwlookup kwargs f.name = some v) :
    initFields cls kwargs (f :: rest) attrs =
      match validate_type v f.hint with
      | .ok v2 => initFields cls kwargs rest (attrs ++ [(f.name, v2)])
      | .error e => .error e := by
  simp only [initFields, hk]

theorem initFields_cons_absent (cls : ModelClass) (kwargs : List (String × PyVal))
    (f : PyField) (rest : List PyField) (attrs : List (String × PyVal))
    (hk : kwlookup kwargs f.name = none) :
    initFields cls kwargs (f :: rest) attrs =
      if hasattrMid cls attrs f.name then initFields cls kwargs rest attrs
      else .error (.valueErr (missingFieldMsg f.name)) := by
  simp only [initFields, hk]

theorem exceptOk_map {α β : Type} (g : α → β) (x : Except PyError α) :
    exceptOk (x.map g) = exceptOk x := by
  cases x <;> rfl

theorem fieldOk_supplied (cls : ModelClass) (kwargs : List (String × PyVal))
    (f : PyField) (v : PyVal) (hk : kwlookup kwargs f.name = some v) :
    fieldOk cls kwargs f = exceptOk (validate_type v f.hint) := by
  simp only [fieldOk, fieldError, hk]
  cases validate_type v f.hint <;> rfl

theorem fieldOk_absent (cls : ModelClass) (kwargs : List (String × PyVal))
    (f : PyField) (hk : kwlookup kwargs f.name = none) :
    fieldOk cls kwargs f = (kwlookup cls.classAttrs f.name).isSome := by
  simp only [fieldOk, fieldError, hk]
  cases h : (kwlookup cls.classAttrs f.name).isSome <;> simp [h]

theorem fieldOk_iff (cls : ModelClass) (kwargs : List (String × PyVal)) (f : PyField) :
    fieldOk cls kwargs f = true ↔
      requiredMissing cls kwargs f = false ∧ suppliedUnreconcilable kwargs f = false := by
  cases hk : kwlookup kwargs f.name with
  | some v =>
      rw [fieldOk_supplied cls kwargs f v hk]
      simp only [requiredMissing, suppliedUnreconcilable, hk]
      cases validate_type v f.hint <;> simp [exceptOk]
  | none =>
      rw [fieldOk_absent cls kwargs f hk]
      simp only [requiredMissing, suppliedUnreconcilable, hk]
      cases h : (kwlookup cls.classAttrs f.name).isSome <;> simp [h]

theorem initFields_isOk (cls : ModelClass) (kwargs : List (String × PyVal)) :
    ∀ (fs : List PyField) (attrs : List (String × PyVal)),
      (fs.map PyField.name).Nodup →
      (∀ f ∈ fs, f.name ∉ attrs.map Prod.fst) →
      (exceptOk (initFields cls kwargs fs attrs) = true ↔
        ∀ f ∈ fs, fieldOk cls kwargs f = true) := by
  intro fs
  induction fs with
  | nil => intro attrs _ _; simp [initFields_nil, exceptOk]
  | cons f0 rest ih =>
      intro attrs hnd hdisj
      simp only [List.map_cons, List.nodup_cons] at hnd
      obtain ⟨hf0rest, hnd'⟩ := hnd
      have hf0attrs : f0.name ∉ attrs.map Prod.fst := hdisj f0 (List.mem_cons_self _ _)
      cases hk : kwlookup kwargs f0.name with
      | some v =>
          rw [initFields_cons_supplied cls kwargs f0 rest attrs v hk]
          cases hv : validate_type v f0.hint with
          | ok v2 =>
              have hdisj' : ∀ g ∈ rest, g.name ∉ (attrs ++ [(f0.name, v2)]).map Prod.fst := by
                intro g hg
                simp only [List.map_append, List.mem_append, List.map_cons, List.map_nil,
                  List.mem_singleton, not_or]
                refine ⟨hdisj g (List.mem_cons_of_mem _ hg), ?_⟩
                intro hgn
                exact hf0rest (hgn ▸ List.mem_map_of_mem PyField.name hg)
              have h0 : fieldOk cls kwargs f0 = true := by
                rw [fieldOk_supplied cls kwargs f0 v hk, hv]; rfl
              rw [show (match Except.ok (ε := PyError) v2 with
                    | .ok v2 => initFields cls kwargs rest (attrs ++ [(f0.name, v2)])
                    | .error e => Except.error e) =
                  initFields cls kwargs rest (attrs ++ [(f0.name, v2)]) from rfl]
              rw [ih (attrs ++ [(f0.name, v2)]) hnd' hdisj']
              constructor
              · intro hall f hf
                rcases List.mem_cons.mp hf with rfl | hf
                · exact h0
                · exact hall f hf
              · intro hall f hf
                exact hall f (List.mem_cons_of_mem _ hf)
          | error e =>
              have h0 : fieldOk cls kwargs f0 = false := by
                rw [fieldOk_supplied cls kwargs f0 v hk, hv]; rfl
              constructor
              · intro hfalse; cases hfalse
              · intro hall
                have := hall f0 (List.mem_cons_self _ _)
                rw [h0] at this
                cases this
      | none =>
          rw [initFields_cons_absent cls kwargs f0 rest attrs hk]
          have hattrs0 : (kwlookup attrs f0.name).isSome = false := by
            rw [kwlookup_eq_none attrs _ hf0attrs]; rfl
          cases hc : (kwlookup cls.classAttrs f0.name).isSome with
          | true =>
              have hh : hasattrMid cls attrs f0.name = true := by
                unfold hasattrMid; rw [hattrs0, hc]; rfl
              rw [if_pos hh]
              have h0 : fieldOk cls kwargs f0 = true := by
                rw [fieldOk_absent cls kwargs f0 hk, hc]
              rw [ih attrs hnd' (fun g hg => hdisj g (List.mem_cons_of_mem _ hg))]
              constructor
              · intro hall f hf
                rcases List.mem_cons.mp hf with rfl | hf
                · exact h0
                · exact hall f hf
              · intro hall f hf
                exact hall f (List.mem_cons_of_mem _ hf)
          | false =>
              have hh : hasattrMid cls attrs f0.name = false := by
                unfold hasattrMid; rw [hattrs0, hc]; rfl
              rw [if_neg (by rw [hh]; exact fun h => by cases h)]
              constructor
              · intro hfalse; cases hfalse
              · intro hall
                have := hall f0 (List.mem_cons_self _ _)
                rw [fieldOk_absent cls kwargs f0 hk, hc] at this
                cases this

theorem initFields_first_error (cls : ModelClass) (kwargs : List (String × PyVal)) :
    ∀ (pre : List PyField) (f : PyField) (post : List PyField)
      (attrs : List (String × PyVal)) (e : PyError),
      (∀ g ∈ pre, fieldOk cls kwargs g = true) →
      fieldError cls kwargs f = some e →
      f.name ∉ attrs.map Prod.fst →
      f.name ∉ pre.map PyField.name →
      initFields cls kwargs (pre ++ f :: post) attrs = .error e := by
  intro pre
  induction pre with
  | nil =>
      intro f post attrs e _ hf hfa _
      simp only [List.nil_append]
      cases hk : kwlookup kwargs f.name with
      | some v =>
          rw [initFields_cons_supplied cls kwargs f post attrs v hk]
          simp only [fieldError, hk] at hf
          cases hv : validate_type v f.hint with
          | ok v2 => rw [hv] at hf; cases hf
          | error e2 => rw [hv] at hf; cases hf; rfl
      | none =>
          rw [initFields_cons_absent cls kwargs f post attrs hk]
          simp only [fieldError, hk] at hf
          cases hc : (kwlookup cls.classAttrs f.name).isSome with
          | true => rw [hc] at hf; simp at hf
          | false =>
              rw [hc] at hf
              simp only [Bool.false_eq_true, if_false, Option.some.injEq] at hf
              have hh : hasattrMid cls attrs f.name = false := by
                unfold hasattrMid
                rw [kwlookup_eq_none attrs _ hfa, hc]; rfl
              rw [if_neg (by rw [hh]; exact fun h => by cases h), hf]
  | cons g pre' ih =>
      intro f post attrs e hpre hf hfa hfp
      simp only [List.cons_append]
      simp only [List.map_cons, List.mem_cons, not_or] at hfp
      obtain ⟨hfg, hfp'⟩ := hfp
      have hg : fieldOk cls kwargs g = true := hpre g (List.mem_cons_self _ _)
      have hpre' : ∀ g2 ∈ pre', fieldOk cls kwargs g2 = true :=
        fun g2 hg2 => hpre g2 (List.mem_cons_of_mem _ hg2)
      cases hk : kwlookup kwargs g.name with
      | some v =>
          rw [initFields_cons_supplied cls kwargs g (pre' ++ f :: post) attrs v hk]
          cases hv : validate_type v g.hint with
          | ok v2 =>
              have hfa' : f.name ∉ (attrs ++ [(g.name, v2)]).map Prod.fst := by
                simp only [List.map_append, List.mem_append, List.map_cons, List.map_nil,
                  List.mem_singleton, not_or]
                exact ⟨hfa, hfg⟩
              exact ih f post (attrs ++ [(g.name, v2)]) e hpre' hf hfa' hfp'
          | error e2 =>
              rw [fieldOk_supplied cls kwargs g v hk, hv] at hg
              cases hg
      | none =>
          rw [initFields_cons_absent cls kwargs g (pre' ++ f :: post) attrs hk]
          rw [fieldOk_absent cls kwargs g hk] at hg
          have hh : hasattrMid cls attrs g.name = true := by
            unfold hasattrMid
            rw [hg]
            simp
          rw [if_pos hh]
          exact ih f post attrs e hpre' hf hfa hfp'

theorem validate_type_ok_cases (v v2 : PyVal) (hint : TypeHint)
    (h : validate_type v hint = .ok v2) :
    (v2 = v ∧ isinstanceHint v (get_actual_type hint) = true) ∨
    (∃ s n, v = .vStr s ∧ get_actual_type hint = .simple .tInt ∧
      parsePyInt s = some n ∧ v2 = .vInt n) := by
  unfold validate_type at h
  split at h
  · rename_i s heq
    split at h
    · rename_i n hp
      cases h
      right
      exact ⟨s, n, rfl, heq, hp, rfl⟩
    · cases h
  · split at h
    · cases h
      left
      exact ⟨rfl, by assumption⟩
    · cases h

theorem get_actual_type_typingUnionFst (args : List PyType) (t : PyType)
    (h : firstNonNone args = some t) :
    get_actual_type (.typingUnion args) = .simple t := by
  simp only [get_actual_type, h]

theorem get_actual_type_typingUnionNone (args : List PyType)
    (h : firstNonNone args = none) :
    get_actual_type (.typingUnion args) = .typingUnion args := by
  simp only [get_actual_type, h]

theorem validate_type_congr (v : PyVal) (h1 h2 : TypeHint)
    (h : get_actual_type h1 = get_actual_type h2) :
    validate_type v h1 = validate_type v h2 := by
  unfold validate_type; rw [h]

theorem validate_pipe (v : PyVal) (args : List PyType) :
    validate_type v (.pipeUnion args) =
      if args.any (isinstanceOf v) then .ok v else .error (.typeErr mismatchMsg) := by
  cases v <;> simp [validate_type, get_actual_type, isinstanceHint]

theorem validate_simple_ok_iff (v : PyVal) (t : PyType) :
    exceptOk (validate_type v (.simple t)) = true ↔
      (isinstanceOf v t = true ∨
        (t = .tInt ∧ ∃ s n, v = .vStr s ∧ parsePyInt s = some n)) := by
  cases t <;> cases v <;>
    try simp [validate_type, get_actual_type, isinstanceHint, isinstanceOf, exceptOk]
  rename_i s
  cases hp : parsePyInt s <;>
    simp [validate_type, get_actual_type, isinstanceHint, isinstanceOf, exceptOk, hp]

theorem validate_type_satisfies (v v2 : PyVal) (hint : TypeHint)
    (h : validate_type v hint = .ok v2) : satisfiesHint v2 hint = true := by
  rcases validate_type_ok_cases v v2 hint h with ⟨rfl, hins⟩ | ⟨s, n, rfl, hg, hp, rfl⟩
  · cases hint with
    | simple t => simpa [satisfiesHint, isinstanceHint, get_actual_type] using hins
    | typingUnion args =>
        cases hf : firstNonNone args with
        | some t =>
            rw [get_actual_type_typingUnionFst args t hf] at hins
            have ht : t ∈ args := List.mem_of_find?_eq_some hf
            simp only [satisfiesHint]
            exact List.any_eq_true.mpr ⟨t, ht, by simpa [isinstanceHint] using hins⟩
        | none =>
            rw [get_actual_type_typingUnionNone args hf] at hins
            simp [isinstanceHint] at hins
    | pipeUnion args =>
        simpa [satisfiesHint, isinstanceHint, get_actual_type] using hins
  · cases hint with
    | simple t =>
        have ht : t = .tInt := by
          have h2 := hg
          simp only [get_actual_type] at h2
          cases h2
          rfl
        subst ht
        simp [satisfiesHint, isinstanceOf]
    | typingUnion args =>
        cases hf : firstNonNone args with
        | some t =>
            rw [get_actual_type_typingUnionFst args t hf] at hg
            have ht : t = .tInt := by cases hg; rfl
            subst ht
            have htm : PyType.tInt ∈ args := List.mem_of_find?_eq_some hf
            simp only [satisfiesHint]
            exact List.any_eq_true.mpr ⟨.tInt, htm, rfl⟩
        | none =>
            rw [get_actual_type_typingUnionNone args hf] at hg
            cases hg
    | pipeUnion args => cases hg

theorem construct_ok_inv (cls : ModelClass) (kwargs : List (String × PyVal))
    (inst : Instance) (h : construct cls kwargs = .ok inst) :
    inst.cls = cls ∧ initFields cls kwargs cls.annotations [] = .ok inst.attrs := by
  unfold construct at h
  cases hi : initFields cls kwargs cls.annotations [] with
  | ok res =>
      rw [hi] at h
      simp only [Except.map] at h
      cases h
      exact ⟨rfl, rfl⟩
  | error e =>
      rw [hi] at h
      simp only [Except.map] at h
      cases h

theorem construct_error_iff (cls : ModelClass) (kwargs : List (String × PyVal))
    (e : PyError) :
    construct cls kwargs = .error e ↔
      initFields cls kwargs cls.annotations [] = .error e := by
  unfold construct
  cases initFields cls kwargs cls.annotations [] <;> simp [Except.map]

theorem construct_isOk_iff (cls : ModelClass) (kwargs : List (String × PyVal))
    (hnd : (fieldNames cls).Nodup) :
    exceptOk (construct cls kwargs) = true ↔
      ∀ f ∈ cls.annotations, fieldOk cls kwargs f = true := by
  unfold construct
  rw [exceptOk_map]
  exact initFields_isOk cls kwargs cls.annotations [] hnd (by simp)

theorem construct_lookup (cls : ModelClass) (kwargs : List (String × PyVal))
    (inst : Instance) (hnd : (fieldNames cls).Nodup)
    (h : construct cls kwargs = .ok inst) :
    ∀ f ∈ cls.annotations,
      (∀ v, kwlookup kwargs f.name = some v →
          ∃ v2, validate_type v f.hint = .ok v2 ∧ getattrI inst f.name = some v2) ∧
      (kwlookup kwargs f.name = none →
          ∃ d, kwlookup cls.classAttrs f.name = some d ∧ getattrI inst f.name = some d) := by
  obtain ⟨hcls, hinit⟩ := construct_ok_inv cls kwargs inst h
  intro f hf
  have hl := initFields_lookup cls kwargs cls.annotations [] inst.attrs hnd
    (by simp) hinit f hf
  constructor
  · intro v hv
    obtain ⟨v2, hval, hres⟩ := hl.1 v hv
    refine ⟨v2, hval, ?_⟩
    unfold getattrI
    rw [hres]
  · intro hv
    obtain ⟨hres, hcs⟩ := hl.2 hv
    obtain ⟨d, hd⟩ := Option.isSome_iff_exists.mp hcs
    refine ⟨d, hd, ?_⟩
    unfold getattrI
    rw [hres, hcls, hd]

theorem model_dump_mem_iff (inst : Instance) (n : String) (v : PyVal) :
    (n, v) ∈ model_dump inst ↔
      n ∈ fieldNames inst.cls ∧ getattrI inst n = some v := by
  unfold model_dump
  rw [List.mem_filterMap]
  constructor
  · rintro ⟨f, hf, hv⟩
    cases hg : getattrI inst f.name with
    | some w =>
        rw [hg] at hv
        simp only [Option.map_some', Option.some.injEq, Prod.mk.injEq] at hv
        obtain ⟨rfl, rfl⟩ := hv
        exact ⟨List.mem_map_of_mem PyField.name hf, hg⟩
    | none => rw [hg] at hv; cases hv
  · rintro ⟨hn, hg⟩
    obtain ⟨f, hf, rfl⟩ := List.mem_map.mp hn
    exact ⟨f, hf, by rw [hg]; rfl⟩

theorem filterMap_keys (g : String → Option PyVal) :
    ∀ (fs : List PyField),
      (fs.filterMap (fun f => (g f.name).map (fun v => (f.name, v)))).map Prod.fst =
        (fs.filter (fun f => (g f.name).isSome)).map PyField.name := by
  intro fs
  induction fs with
  | nil => rfl
  | cons f rest ih =>
      cases hg : g f.name with
      | some w => simp [List.filterMap_cons, List.filter_cons, hg, ih]
      | none => simp [List.filterMap_cons, List.filter_cons, hg, ih]

theorem model_dump_keys (inst : Instance) :
    (model_dump inst).map Prod.fst =
      (inst.cls.annotations.filter
        (fun f => (getattrI inst f.name).isSome)).map PyField.name := by
  unfold model_dump
  exact filterMap_keys (getattrI inst) inst.cls.annotations

theorem initFields_congr_kwargs (cls : ModelClass)
    (kwargs kwargs' : List (String × PyVal)) :
    ∀ (fs : List PyField) (attrs : List (String × PyVal)),
      (∀ f ∈ fs, kwlookup kwargs f.name = kwlookup kwargs' f.name) →
      initFields cls kwargs fs attrs = initFields cls kwargs' fs attrs := by
  intro fs
  induction fs with
  | nil => intro attrs _; rfl
  | cons f rest ih =>
      intro attrs hag
      have hf := hag f (List.mem_cons_self _ _)
      have hag' : ∀ g ∈ rest, kwlookup kwargs g.name = kwlookup kwargs' g.name :=
        fun g hg => hag g (List.mem_cons_of_mem _ hg)
      cases hk : kwlookup kwargs f.name with
      | some v =>
          rw [initFields_cons_supplied cls kwargs f rest attrs v hk,
              initFields_cons_supplied cls kwargs' f rest attrs v (hf.symm.trans hk)]
          cases validate_type v f.hint with
          | ok v2 => exact ih (attrs ++ [(f.name, v2)]) hag'
          | error e => rfl
      | none =>
          rw [initFields_cons_absent cls kwargs f rest attrs hk,
              initFields_cons_absent cls kwargs' f rest attrs (hf.symm.trans hk)]
          by_cases hh : hasattrMid cls attrs f.name = true
          · rw [if_pos hh, if_pos hh]
            exact ih attrs hag'
          · rw [if_neg hh, if_neg hh]

theorem kwlookup_restrict (names : List String) (kwargs : List (String × PyVal))
    (n : String) (hn : names.contains n = true) :
    kwlookup (restrictKwargs names kwargs) n = kwlookup kwargs n := by
  induction kwargs with
  | nil => rfl
  | cons p rest ih =>
      obtain ⟨k, v⟩ := p
      by_cases hk : k = n
      · subst hk
        have hn2 : k ∈ names := by simpa using hn
        simp [restrictKwargs, hn2, kwlookup]
      · cases hc : names.contains k with
        | false =>
            have hc2 : k ∉ names := by simpa using hc
            simp [restrictKwargs, hc2, kwlookup, hk, ih]
        | true =>
            have hc2 : k ∈ names := by simpa using hc
            simp [restrictKwargs, hc2, kwlookup, hk, ih]

theorem name_not_in_pre (cls : ModelClass) (pre post : List PyField) (f : PyField)
    (hnd : (fieldNames cls).Nodup) (hsplit : cls.annotations = pre ++ f :: post) :
    f.name ∉ pre.map PyField.name := by
  have hnd2 : (pre.map PyField.name ++ (f.name :: post.map PyField.name)).Nodup := by
    have he : fieldNames cls = pre.map PyField.name ++ (f.name :: post.map PyField.name) := by
      unfold fieldNames
      rw [hsplit, List.map_append, List.map_cons]
    rwa [he] at hnd
  intro hmem
  exact (List.nodup_append.mp hnd2).2.2 hmem (List.mem_cons_self _ _)

/-! ## The claims -/

/-- C1: construction of a `SimpleBaseModel` subclass instance fails exactly
when some declared field is required (no class-level default) and absent from
the keyword arguments, or some supplied value cannot be reconciled with the
declared type; the failure is one of the two simple descriptive errors
(`ValueError`/`TypeError`), and construction succeeds in every other case. -/
theorem claim_C1 (cls : ModelClass) (kwargs : List (String × PyVal))
    (hnd : (fieldNames cls).Nodup) :
    (exceptOk (construct cls kwargs) = false ↔
      ∃ f ∈ cls.annotations,
        requiredMissing cls kwargs f = true ∨
        suppliedUnreconcilable kwargs f = true) ∧
    (∀ e, construct cls kwargs = .error e →
      (∃ m, e = .valueErr m) ∨ (∃ m, e = .typeErr m)) := by
  have hiff := construct_isOk_iff cls kwargs hnd
  constructor
  · constructor
    · intro hfalse
      by_contra hno
      push_neg at hno
      have hall : ∀ f ∈ cls.annotations, fieldOk cls kwargs f = true := by
        intro f hf
        have h1 := hno f hf
        rw [fieldOk_iff]
        constructor
        · cases h2 : requiredMissing cls kwargs f with
          | false => rfl
          | true => exact absurd h2 h1.1
        · cases h2 : suppliedUnreconcilable kwargs f with
          | false => rfl
          | true => exact absurd h2 h1.2
      rw [hiff.mpr hall] at hfalse
      cases hfalse
    · rintro ⟨f, hf, hor⟩
      cases hok : exceptOk (construct cls kwargs) with
      | false => rfl
      | true =>
          exfalso
          have hfok := hiff.mp hok f hf
          rw [fieldOk_iff] at hfok
          rcases hor with h2 | h2
          · rw [hfok.1] at h2; cases h2
          · rw [hfok.2] at h2; cases h2
  · intro e _
    cases e with
    | valueErr m => exact Or.inl ⟨m, rfl⟩
    | typeErr m => exact Or.inr ⟨m, rfl⟩

theorem claim_C1_witness :
    exceptOk (construct UserClass []) = false :=
  (claim_C1 UserClass [] (by decide)).1.mpr
    ⟨⟨"name", .simple .tStr⟩, by decide, Or.inl (by decide)⟩

/-- C2: for a declared field whose hint reduces to `int`, a supplied string
value is numerically parsed: on success the stored attribute is the parsed
integer; on failure (reached in declaration order) construction raises the
conversion `TypeError`. -/
theorem claim_C2 (cls : ModelClass) (kwargs : List (String × PyVal))
    (pre post : List PyField) (f : PyField) (s : String)
    (hnd : (fieldNames cls).Nodup)
    (hsplit : cls.annotations = pre ++ f :: post)
    (hhint : get_actual_type f.hint = .simple .tInt)
    (hsup : kwlookup kwargs f.name = some (.vStr s)) :
    (∀ n, parsePyInt s = some n →
        validate_type (.vStr s) f.hint = .ok (.vInt n) ∧
        ∀ inst, construct cls kwargs = .ok inst →
          getattrI inst f.name = some (.vInt n)) ∧
    (parsePyInt s = none →
        (∀ g ∈ pre, fieldOk cls kwargs g = true) →
        construct cls kwargs = .error (.typeErr (convErrMsg s))) := by
  have hmem : f ∈ cls.annotations := by
    rw [hsplit]; exact List.mem_append.mpr (Or.inr (List.mem_cons_self _ _))
  have hcongr : validate_type (.vStr s) f.hint =
      validate_type (.vStr s) (.simple .tInt) :=
    validate_type_congr _ f.hint (.simple .tInt) (by rw [hhint]; rfl)
  constructor
  · intro n hp
    have hval : validate_type (.vStr s) f.hint = .ok (.vInt n) := by
      rw [hcongr]
      simp [validate_type, get_actual_type, hp]
    refine ⟨hval, ?_⟩
    intro inst hinst
    obtain ⟨v2, hv2, hg⟩ :=
      (construct_lookup cls kwargs inst hnd hinst f hmem).1 (.vStr s) hsup
    rw [hval] at hv2
    cases hv2
    exact hg
  · intro hp hpre
    have hval : validate_type (.vStr s) f.hint = .error (.typeErr (convErrMsg s)) := by
      rw [hcongr]
      simp [validate_type, get_actual_type, hp]
    have hferr : fieldError cls kwargs f = some (.typeErr (convErrMsg s)) := by
      simp only [fieldError, hsup, hval]
    rw [construct_error_iff, hsplit]
    exact initFields_first_error cls kwargs pre f post [] _ hpre hferr (by simp)
      (name_not_in_pre cls pre post f hnd hsplit)

theorem claim_C2_witness :
    validate_type (.vStr "25") (.simple .tInt) = .ok (.vInt 25) ∧
    getattrI ⟨UserClass, [("name", .vStr "张三"), ("age", .vInt 25)]⟩ "age" =
      some (.vInt 25) ∧
    construct UserClass [("name", .vStr "张三"), ("age", .vStr "abc")] =
      .error (.typeErr (convErrMsg "abc")) := by
  have h1 := claim_C2 UserClass [("name", .vStr "张三"), ("age", .vStr "25")]
    [⟨"name", .simple .tStr⟩] [⟨"email", .pipeUnion [.tStr, .tNone]⟩]
    ⟨"age", .simple .tInt⟩ "25" (by decide) rfl rfl rfl
  have h2 := claim_C2 UserClass [("name", .vStr "张三"), ("age", .vStr "abc")]
    [⟨"name", .simple .tStr⟩] [⟨"email", .pipeUnion [.tStr, .tNone]⟩]
    ⟨"age", .simple .tInt⟩ "abc" (by decide) rfl rfl rfl
  obtain ⟨hv, hg⟩ := h1.1 25 (by decide)
  exact ⟨hv, hg ⟨UserClass, [("name", .vStr "张三"), ("age", .vInt 25)]⟩ rfl,
    h2.2 (by decide) (by decide)⟩

/-- C3 counterexample: for the `str | None` annotation of `User.email` the
first non-`None` alternative is `str`, yet a supplied `None` passes
validation and is stored (construction succeeds), although `None` is not an
instance of `str` and no string-to-int coercion applies — so "passes iff the
runtime type matches the first non-null alternative" is false for the
`X | None` form. -/
theorem claim_C3_counterexample :
    construct UserClass [("name", .vStr "A"), ("age", .vInt 1), ("email", .vNone)] =
      .ok ⟨UserClass,
        [("name", .vStr "A"), ("age", .vInt 1), ("email", .vNone)]⟩ ∧
    getattrI ⟨UserClass,
        [("name", .vStr "A"), ("age", .vInt 1), ("email", .vNone)]⟩ "email" =
      some .vNone ∧
    firstNonNone [.tStr, .tNone] = some .tStr ∧
    isinstanceOf .vNone .tStr = false := by
  refine ⟨rfl, rfl, by decide, rfl⟩

/-- C3 amended: `_get_actual_type` reduces only `typing.Union`/
`typing.Optional` subscriptions to their first non-`None` alternative, and
for those a supplied value passes validation iff it is an instance of that
alternative or the string-to-int coercion applies to it; for the PEP 604
`X | None` form (used by `User.email`, whose origin is `types.UnionType`,
not `typing.Union`) no reduction happens and a supplied value passes
validation iff it is an instance of some alternative of the union. -/
theorem claim_C3_amended (args : List PyType) (v : PyVal) :
    (∀ t, firstNonNone args = some t →
        get_actual_type (.typingUnion args) = .simple t ∧
        (exceptOk (validate_type v (.typingUnion args)) = true ↔
          (isinstanceOf v t = true ∨
            (t = .tInt ∧ ∃ s n, v = .vStr s ∧ parsePyInt s = some n)))) ∧
    (get_actual_type (.pipeUnion args) = .pipeUnion args ∧
      (exceptOk (validate_type v (.pipeUnion args)) = true ↔
        args.any (isinstanceOf v) = true)) := by
  constructor
  · intro t ht
    refine ⟨get_actual_type_typingUnionFst args t ht, ?_⟩
    rw [validate_type_congr v (.typingUnion args) (.simple t)
      (by rw [get_actual_type_typingUnionFst args t ht]; rfl)]
    exact validate_simple_ok_iff v t
  · refine ⟨rfl, ?_⟩
    rw [validate_pipe]
    cases h : args.any (isinstanceOf v) <;> simp [h, exceptOk]

theorem claim_C3_amended_witness :
    exceptOk (validate_type (.vInt 5) (.typingUnion [.tNone, .tInt])) = true ∧
    exceptOk (validate_type .vNone (.pipeUnion [.tStr, .tNone])) = true :=
  ⟨(((claim_C3_amended [.tNone, .tInt] (.vInt 5)).1 .tInt (by decide)).2).mpr
      (Or.inl rfl),
   ((claim_C3_amended [.tStr, .tNone] .vNone).2.2).mpr (by decide)⟩

/-- C4: omitting a declared field that has no class-level default makes
construction fail (no instance), with the `ValueError` naming the missing
field when that field is the first offender; omitting a declared field that
does have a class-level default (all fields passing) succeeds and the
instance keeps the default value. -/
theorem claim_C4 (cls : ModelClass) (kwargs : List (String × PyVal))
    (hnd : (fieldNames cls).Nodup) :
    (∀ pre f post, cls.annotations = pre ++ f :: post →
        kwlookup kwargs f.name = none →
        kwlookup cls.classAttrs f.name = none →
        exceptOk (construct cls kwargs) = false ∧
        ((∀ g ∈ pre, fieldOk cls kwargs g = true) →
          construct cls kwargs = .error (.valueErr (missingFieldMsg f.name)))) ∧
    (∀ f ∈ cls.annotations, kwlookup kwargs f.name = none →
        ∀ d, kwlookup cls.classAttrs f.name = some d →
        (∀ g ∈ cls.annotations, fieldOk cls kwargs g = true) →
        ∃ inst, construct cls kwargs = .ok inst ∧ getattrI inst f.name = some d) := by
  constructor
  · intro pre f post hsplit hk hc
    have hmem : f ∈ cls.annotations := by
      rw [hsplit]; exact List.mem_append.mpr (Or.inr (List.mem_cons_self _ _))
    have hferr : fieldError cls kwargs f = some (.valueErr (missingFieldMsg f.name)) := by
      simp only [fieldError, hk, hc]
      rfl
    constructor
    · cases hok : exceptOk (construct cls kwargs) with
      | false => rfl
      | true =>
          exfalso
          have hfok := (construct_isOk_iff cls kwargs hnd).mp hok f hmem
          rw [fieldOk_absent cls kwargs f hk, hc] at hfok
          cases hfok
    · intro hpre
      rw [construct_error_iff, hsplit]
      exact initFields_first_error cls kwargs pre f post [] _ hpre hferr (by simp)
        (name_not_in_pre cls pre post f hnd hsplit)
  · intro f hf hk d hd hall
    have hok : exceptOk (construct cls kwargs) = true :=
      (construct_isOk_iff cls kwargs hnd).mpr hall
    cases hcons : construct cls kwargs with
    | error e => rw [hcons] at hok; cases hok
    | ok inst =>
        obtain ⟨d2, hd2, hg⟩ :=
          (construct_lookup cls kwargs inst hnd hcons f hf).2 hk
        rw [hd] at hd2
        cases hd2
        exact ⟨inst, rfl, hg⟩

theorem claim_C4_witness :
    construct UserClass [("age", .vInt 3)] =
      .error (.valueErr (missingFieldMsg "name")) ∧
    ∃ inst, construct UserClass [("name", .vStr "A"), ("age", .vInt 1)] = .ok inst ∧
      getattrI inst "email" = some .vNone :=
  ⟨((claim_C4 UserClass [("age", .vInt 3)] (by decide)).1 []
      ⟨"name", .simple .tStr⟩
      [⟨"age", .simple .tInt⟩, ⟨"email", .pipeUnion [.tStr, .tNone]⟩]
      rfl rfl rfl).2 (by simp),
   (claim_C4 UserClass [("name", .vStr "A"), ("age", .vInt 1)] (by decide)).2
      ⟨"email", .pipeUnion [.tStr, .tNone]⟩ (by decide) rfl .vNone rfl (by decide)⟩

/-- C5 counterexample: a subclass whose `int` field has the class-level
default `"oops"` constructs successfully from empty keyword arguments, and
the resulting instance's declared field holds a value that does not satisfy
the declared hint — defaults are never validated. -/
theorem claim_C5_counterexample :
    construct BadDefaultClass [] = .ok ⟨BadDefaultClass, []⟩ ∧
    getattrI ⟨BadDefaultClass, []⟩ "x" = some (.vStr "oops") ∧
    satisfiesHint (.vStr "oops") (.simple .tInt) = false :=
  ⟨rfl, rfl, rfl⟩

/-- C5 amended: on every successfully constructed instance, every declared
field is present as an attribute, and — provided each class-level default of
a declared field satisfies that field's hint (defaults are stored
unvalidated) — its value satisfies the declared hint: a supplied value
after reduction/coercion, an omitted field through its default. -/
theorem claim_C5_amended (cls : ModelClass) (kwargs : List (String × PyVal))
    (inst : Instance) (hnd : (fieldNames cls).Nodup)
    (hok : construct cls kwargs = .ok inst)
    (hdef : ∀ f ∈ cls.annotations, ∀ d, kwlookup cls.classAttrs f.name = some d →
        satisfiesHint d f.hint = true) :
    ∀ f ∈ cls.annotations, ∃ v, getattrI inst f.name = some v ∧
      satisfiesHint v f.hint = true := by
  intro f hf
  have hl := construct_lookup cls kwargs inst hnd hok f hf
  cases hk : kwlookup kwargs f.name with
  | some v =>
      obtain ⟨v2, hval, hg⟩ := hl.1 v hk
      exact ⟨v2, hg, validate_type_satisfies v v2 f.hint hval⟩
  | none =>
      obtain ⟨d, hd, hg⟩ := hl.2 hk
      exact ⟨d, hg, hdef f hf d hd⟩

theorem claim_C5_amended_witness :
    ∃ v, getattrI ⟨UserClass, [("name", .vStr "张三"), ("age", .vInt 25)]⟩ "age" =
        some v ∧ satisfiesHint v (.simple .tInt) = true := by
  have h := claim_C5_amended UserClass [("name", .vStr "张三"), ("age", .vStr "25")]
    ⟨UserClass, [("name", .vStr "张三"), ("age", .vInt 25)]⟩ (by decide) rfl
    (by
      intro f hf d hd
      simp only [UserClass] at hf
      rcases (by simpa using hf : f = ⟨"name", .simple .tStr⟩ ∨
          f = ⟨"age", .simple .tInt⟩ ∨
          f = ⟨"email", .pipeUnion [.tStr, .tNone]⟩) with rfl | rfl | rfl
      · simp [UserClass, kwlookup] at hd
      · simp [UserClass, kwlookup] at hd
      · have hdv : d = .vNone := by
          simp [UserClass, kwlookup] at hd
          exact hd.symm
        subst hdv
        rfl)
    ⟨"age", .simple .tInt⟩ (by decide)
  exact h

/-- C6: `model_dump` returns exactly the declared (annotated) fields that are
present as attributes of the instance (via `hasattr`/`getattr`, so instance
attributes first, then class defaults), each mapped to its current value, in
declaration order; names outside the class annotations never appear. -/
theorem claim_C6 (inst : Instance) :
    (∀ n v, ((n, v) ∈ model_dump inst ↔
        n ∈ fieldNames inst.cls ∧ getattrI inst n = some v)) ∧
    (model_dump inst).map Prod.fst =
      (inst.cls.annotations.filter
        (fun f => (getattrI inst f.name).isSome)).map PyField.name :=
  ⟨fun n v => model_dump_mem_iff inst n v, model_dump_keys inst⟩

/-- C7: the embedded sample run — `User(name="张三", age="25")` succeeds with
the age string coerced to the integer 25, and `user.model_dump()` returns
the dict with name "张三", age 25 and email None, as the file's expected
output states. -/
theorem claim_C7 :
    construct UserClass [("name", .vStr "张三"), ("age", .vStr "25")] =
      .ok ⟨UserClass, [("name", .vStr "张三"), ("age", .vInt 25)]⟩ ∧
    getattrI ⟨UserClass, [("name", .vStr "张三"), ("age", .vInt 25)]⟩ "age" =
      some (.vInt 25) ∧
    model_dump ⟨UserClass, [("name", .vStr "张三"), ("age", .vInt 25)]⟩ =
      [("name", .vStr "张三"), ("age", .vInt 25), ("email", .vNone)] :=
  ⟨rfl, rfl, rfl⟩

/-- C8: `__init__` walks the annotations in declaration order and raises at
the first offending field: if every field declared before `f` passes and `f`
fails with error `e`, construction raises exactly `e`, whatever comes after
`f` — errors are never aggregated. -/
theorem claim_C8 (cls : ModelClass) (kwargs : List (String × PyVal))
    (pre : List PyField) (f : PyField) (post : List PyField) (e : PyError)
    (hnd : (fieldNames cls).Nodup)
    (hsplit : cls.annotations = pre ++ f :: post)
    (hpre : ∀ g ∈ pre, fieldOk cls kwargs g = true)
    (hf : fieldError cls kwargs f = some e) :
    construct cls kwargs = .error e := by
  rw [construct_error_iff, hsplit]
  exact initFields_first_error cls kwargs pre f post [] e hpre hf (by simp)
    (name_not_in_pre cls pre post f hnd hsplit)

theorem claim_C8_witness :
    construct UserClass [("age", .vStr "abc")] =
      .error (.valueErr (missingFieldMsg "name")) :=
  claim_C8 UserClass [("age", .vStr "abc")] [] ⟨"name", .simple .tStr⟩
    [⟨"age", .simple .tInt⟩, ⟨"email", .pipeUnion [.tStr, .tNone]⟩]
    (.valueErr (missingFieldMsg "name")) (by decide) rfl (by simp) rfl

/-- C9: keyword arguments whose names are not declared annotations are
silently ignored: construction behaves exactly as with the kwargs restricted
to declared names, every instance attribute set by construction is a
declared name, and `model_dump` never mentions an undeclared name. -/
theorem claim_C9 (cls : ModelClass) (kwargs : List (String × PyVal)) :
    construct cls kwargs =
      construct cls (restrictKwargs (fieldNames cls) kwargs) ∧
    (∀ inst, construct cls kwargs = .ok inst →
        ∀ p ∈ inst.attrs, p.1 ∈ fieldNames cls) ∧
    (∀ inst n v, (n, v) ∈ model_dump inst → n ∈ fieldNames inst.cls) := by
  refine ⟨?_, ?_, ?_⟩
  · unfold construct
    rw [initFields_congr_kwargs cls kwargs (restrictKwargs (fieldNames cls) kwargs)
      cls.annotations []
      (fun f hf => (kwlookup_restrict (fieldNames cls) kwargs f.name
        (List.elem_eq_true_of_mem (List.mem_map_of_mem PyField.name hf))).symm)]
  · intro inst hinst p hp
    obtain ⟨_, hinit⟩ := construct_ok_inv cls kwargs inst hinst
    obtain ⟨ext, he, hmem⟩ := initFields_ok_extends cls kwargs cls.annotations [] inst.attrs hinit
    rw [List.nil_append] at he
    exact hmem p (he ▸ hp)
  · intro inst n v hmem
    exact ((model_dump_mem_iff inst n v).mp hmem).1

theorem claim_C9_witness :
    construct UserClass [("name", .vStr "A"), ("junk", .vInt 7), ("age", .vInt 3)] =
      construct UserClass (restrictKwargs (fieldNames UserClass)
        [("name", .vStr "A"), ("junk", .vInt 7), ("age", .vInt 3)]) ∧
    ("name", PyVal.vStr "A").1 ∈ fieldNames UserClass ∧
    ("age" : String) ∈ fieldNames UserClass := by
  have h := claim_C9 UserClass [("name", .vStr "A"), ("junk", .vInt 7), ("age", .vInt 3)]
  refine ⟨h.1, ?_, ?_⟩
  · exact h.2.1 ⟨UserClass, [("name", .vStr "A"), ("age", .vInt 3)]⟩ rfl
      ("name", PyVal.vStr "A") (by simp)
  · exact h.2.2 ⟨UserClass, [("name", .vStr "A"), ("age", .vInt 3)]⟩ "age" (.vInt 3)
      (by decide)

/-- C10: for a field declared as `int`, a supplied boolean passes the
`isinstance` check (Python's `bool` is a subclass of `int`) and
`_validate_type` returns it unchanged — it is neither rejected nor converted
to 0 or 1. -/
theorem claim_C10 (b : Bool) :
    isinstanceOf (.vBool b) .tInt = true ∧
    validate_type (.vBool b) (.simple .tInt) = .ok (.vBool b) := by
  cases b <;> exact ⟨rfl, rfl⟩
